import Mathlib

/-
Verification of the Fibonacci durable-object sequence actor (src/index.ts).

The actor's single operation `getCounter` reads two durable storage slots
("current" and "previous"), computes the next value of a Fibonacci-style
sequence seeded 1, 2, writes the shifted state back, and returns both the
new record and the pre-update current record.

Shallow embedding: durable storage is a key/value map `String → Option
StoredData`; the wall clock read `Date.now()` becomes an explicit `now`
parameter; JavaScript numbers used as counters and millisecond timestamps
are modelled as `Int`.  The falsy-coalescing fallback
`previousData?.counter || 1` is modelled faithfully: a stored counter of 0
falls back to 1 exactly as a JavaScript falsy value would.
-/

namespace FibDO

/-- The opaque context payload (the `LocationInfo` interface): eight string
attributes extracted from the request; the actor never interprets them. -/
structure LocationInfo where
  city : String
  country : String
  region : String
  timezone : String
  latitude : String
  longitude : String
  postalCode : String
  colo : String
deriving DecidableEq

/-- One persisted snapshot (the `StoredData` interface): counter value,
verbatim context, and the wall-clock timestamp at write time. -/
structure StoredData where
  counter : Int
  location : LocationInfo
  timestamp : Int
deriving DecidableEq

/-- The value returned by one invocation (the `ResponseData` interface):
the new current record and the pre-update current record (or null). -/
structure ResponseData where
  current : StoredData
  previous : Option StoredData
deriving DecidableEq

/-- The actor's private durable key/value storage surface
(`ctx.storage`): a map from keys to stored records. -/
def Storage : Type := String → Option StoredData

/-- `ctx.storage.get(key)`. -/
def Storage.get (st : Storage) (k : String) : Option StoredData := st k

/-- `ctx.storage.put(key, record)`: point update of the map. -/
def Storage.put (st : Storage) (k : String) (v : StoredData) : Storage :=
  fun x => if x = k then some v else st x

/-- Fresh durable storage: no key has ever been written. -/
def emptyStorage : Storage := fun _ => none

/-- The fallback expression `previousData?.counter || 1` of line 69: the
counter of the previous record when it is present and truthy (nonzero),
otherwise 1. -/
def fallbackCounter : Option StoredData → Int
  | some pd => if pd.counter = 0 then 1 else pd.counter
  | none => 1

/-- Lines 62-71: the next counter value.  If no current record exists the
bootstrap value is 2; otherwise it is `fallbackCounter previousData +
currentData.counter`. -/
def nextCounterValue (currentData previousData : Option StoredData) : Int :=
  match currentData with
  | none => 2
  | some cd => fallbackCounter previousData + cd.counter

/-- The `getCounter` method (lines 57-92): reads both slots, computes the
next value, builds the new current record with the supplied context and
clock reading, writes the old current into "previous" (only when it
existed), writes the new record into "current", and returns the new record
together with the pre-update current record. -/
def getCounter (st : Storage) (locationInfo : LocationInfo) (now : Int) :
    ResponseData × Storage :=
  let currentData := st.get "current"
  let previousData := st.get "previous"
  let newCurrentData : StoredData :=
    { counter := nextCounterValue currentData previousData
      location := locationInfo
      timestamp := now }
  let st1 : Storage :=
    match currentData with
    | some cd => st.put "previous" cd
    | none => st
  let st2 : Storage := st1.put "current" newCurrentData
  ({ current := newCurrentData, previous := currentData }, st2)

/-- `getCounter` with storage-write failure injection: `okPrev` and
`okCur` tell whether the `put("previous", ...)` and `put("current", ...)`
calls succeed.  A failed put aborts the invocation (the `await` throws),
leaving the storage exactly as the successful puts so far left it; the
error value carries that durable state. -/
def getCounterFail (st : Storage) (locationInfo : LocationInfo) (now : Int)
    (okPrev okCur : Bool) : Except Storage (ResponseData × Storage) :=
  let currentData := st.get "current"
  let previousData := st.get "previous"
  let newCurrentData : StoredData :=
    { counter := nextCounterValue currentData previousData
      location := locationInfo
      timestamp := now }
  match currentData with
  | some cd =>
      if okPrev then
        let st1 := st.put "previous" cd
        if okCur then
          Except.ok ({ current := newCurrentData, previous := currentData },
            st1.put "current" newCurrentData)
        else Except.error st1
      else Except.error st
  | none =>
      if okCur then
        Except.ok ({ current := newCurrentData, previous := currentData },
          st.put "current" newCurrentData)
      else Except.error st

/-- Modelled from the spec: variant of `getCounter` whose fallback is a
pure absence check — `p = previousData.value` whenever a previous record is
present (even when its value is 0), and 1 only when it is absent.  Used to
compare the code's falsy-coalescing fallback with the spec's wording on
reachable states. -/
def getCounterAbsence (st : Storage) (locationInfo : LocationInfo) (now : Int) :
    ResponseData × Storage :=
  let currentData := st.get "current"
  let previousData := st.get "previous"
  let newCurrentData : StoredData :=
    { counter :=
        match currentData with
        | none => 2
        | some cd =>
            (match previousData with
             | some pd => pd.counter
             | none => 1) + cd.counter
      location := locationInfo
      timestamp := now }
  let st1 : Storage :=
    match currentData with
    | some cd => st.put "previous" cd
    | none => st
  let st2 : Storage := st1.put "current" newCurrentData
  ({ current := newCurrentData, previous := currentData }, st2)

/-- The state of the durable storage after running a list of invocations
(context and clock reading for each) in order. -/
def runState (st : Storage) : List (LocationInfo × Int) → Storage
  | [] => st
  | (l, t) :: rest => runState (getCounter st l t).2 rest

/-- The responses produced by a list of invocations run in order. -/
def runResponses (st : Storage) : List (LocationInfo × Int) → List ResponseData
  | [] => []
  | (l, t) :: rest =>
      (getCounter st l t).1 :: runResponses (getCounter st l t).2 rest

/-- Storage states reachable from fresh storage by successful invocations
of `getCounter`. -/
inductive Reachable : Storage → Prop
  | empty : Reachable emptyStorage
  | step (st : Storage) (l : LocationInfo) (t : Int) :
      Reachable st → Reachable (getCounter st l t).2

/-- Invariant of reachable storage states: the current counter is at least
2, a present previous record has counter at least 2 and strictly below the
current counter, a previous record never exists without a current one, and
no key other than "current" and "previous" is ever populated. -/
def GoodState (st : Storage) : Prop :=
  (∀ c, st.get "current" = some c → 2 ≤ c.counter) ∧
  (∀ p, st.get "previous" = some p →
      2 ≤ p.counter ∧ ∃ c, st.get "current" = some c ∧ p.counter < c.counter) ∧
  (st.get "current" = none → st.get "previous" = none) ∧
  (∀ k, k ≠ "current" → k ≠ "previous" → st.get k = none)

/-- The sequence the actor realises: seed values 1 and 2, then the
Fibonacci recurrence.  `fibSeq k` is the counter stored in "current" after
`k` invocations on a fresh actor (for `k ≥ 1`); `fibSeq 0 = 1` is the
conceptual pre-seed used by the bootstrap fallback. -/
def fibSeq : Nat → Int
  | 0 => 1
  | 1 => 2
  | n + 2 => fibSeq (n + 1) + fibSeq n

/-- Storage shape after `k ≥ 1` invocations on a fresh actor: the current
counter is `fibSeq k`; after exactly one invocation the previous slot is
still empty; from two invocations on it holds `fibSeq (k-1)`. -/
def FibState (k : Nat) (st : Storage) : Prop :=
  (∃ c, st.get "current" = some c ∧ c.counter = fibSeq k) ∧
  (k = 1 → st.get "previous" = none) ∧
  (2 ≤ k → ∃ p, st.get "previous" = some p ∧ p.counter = fibSeq (k - 1))

/-- A concrete context payload, as the HTTP layer builds it when the
request carries no metadata. -/
def exLoc : LocationInfo :=
  { city := "Unknown", country := "Unknown", region := "Unknown"
    timezone := "Unknown", latitude := "Unknown", longitude := "Unknown"
    postalCode := "Unknown", colo := "Unknown" }

/-- A second concrete context payload. -/
def exLoc2 : LocationInfo :=
  { city := "London", country := "GB", region := "England"
    timezone := "Europe/London", latitude := "51.5", longitude := "-0.1"
    postalCode := "EC1", colo := "LHR" }

/-- An unreachable storage state: a previous record with counter 0 next to
a current record with counter 5. -/
def zeroPrevStorage : Storage :=
  Storage.put (Storage.put emptyStorage "previous"
    { counter := 0, location := exLoc, timestamp := 0 })
    "current" { counter := 5, location := exLoc, timestamp := 0 }

/-- An unreachable storage state holding a previous record but no current
record. -/
def orphanPrevStorage : Storage :=
  Storage.put emptyStorage "previous"
    { counter := 2, location := exLoc, timestamp := 0 }

/-- A storage state one successful invocation past fresh. -/
def seededStorage : Storage := (getCounter emptyStorage exLoc 0).2

/-- A concrete three-invocation input sequence. -/
def inputs3 : List (LocationInfo × Int) := [(exLoc, 0), (exLoc2, 1), (exLoc, 2)]

theorem prev_ne_cur : ("previous" : String) ≠ "current" := by decide

theorem cur_ne_prev : ("current" : String) ≠ "previous" := by decide

theorem put_get_same (st : Storage) (k : String) (v : StoredData) :
    (st.put k v).get k = some v := by
  simp [Storage.put, Storage.get]

theorem put_get_other (st : Storage) (k k' : String) (v : StoredData)
    (h : k' ≠ k) : (st.put k v).get k' = st.get k' := by
  simp [Storage.put, Storage.get, h]

theorem getCounter_resp_current (st : Storage) (l : LocationInfo) (t : Int) :
    (getCounter st l t).1.current =
      { counter := nextCounterValue (st.get "current") (st.get "previous")
        location := l, timestamp := t } := rfl

theorem getCounter_resp_previous (st : Storage) (l : LocationInfo) (t : Int) :
    (getCounter st l t).1.previous = st.get "current" := rfl

theorem getCounter_state_current (st : Storage) (l : LocationInfo) (t : Int) :
    (getCounter st l t).2.get "current" = some ((getCounter st l t).1.current) := by
  cases hc : st.get "current" <;>
    simp [getCounter, hc, put_get_same]

theorem getCounter_state_previous (st : Storage) (l : LocationInfo) (t : Int) :
    (getCounter st l t).2.get "previous" =
      match st.get "current" with
      | some cd => some cd
      | none => st.get "previous" := by
  cases hc : st.get "current" <;>
    simp [getCounter, hc, put_get_same, put_get_other, prev_ne_cur]

theorem getCounter_state_other (st : Storage) (l : LocationInfo) (t : Int)
    (k : String) (hk1 : k ≠ "current") (hk2 : k ≠ "previous") :
    (getCounter st l t).2.get k = st.get k := by
  cases hc : st.get "current" <;>
    simp [getCounter, hc, put_get_other, hk1, hk2]

theorem goodState_empty : GoodState emptyStorage := by
  refine ⟨?_, ?_, ?_, ?_⟩ <;> intros <;> simp_all [emptyStorage, Storage.get]

theorem goodState_step (st : Storage) (l : LocationInfo) (t : Int)
    (h : GoodState st) : GoodState (getCounter st l t).2 := by
  obtain ⟨hcur, hprev, hnone, hother⟩ := h
  refine ⟨?_, ?_, ?_, ?_⟩
  · intro c hc
    rw [getCounter_state_current] at hc
    injection hc with hc
    subst hc
    rw [getCounter_resp_current]
    cases hc0 : st.get "current" with
    | none => simp [nextCounterValue, hc0]
    | some cd =>
      have h2 : 2 ≤ cd.counter := hcur cd hc0
      cases hp0 : st.get "previous" with
      | none => simp [nextCounterValue, hc0, hp0, fallbackCounter]; omega
      | some pd =>
        have hpd := hprev pd hp0
        have : fallbackCounter (some pd) = pd.counter := by
          simp [fallbackCounter]; omega
        simp [nextCounterValue, hc0, this]
        omega
  · intro p hp
    rw [getCounter_state_previous] at hp
    cases hc0 : st.get "current" with
    | none =>
      rw [hc0] at hp
      simp only at hp
      rw [hnone hc0] at hp
      exact Option.noConfusion hp
    | some cd =>
      rw [hc0] at hp
      simp at hp
      subst hp
      refine ⟨hcur cd hc0, (getCounter st l t).1.current, getCounter_state_current st l t, ?_⟩
      rw [getCounter_resp_current]
      cases hp0 : st.get "previous" with
      | none =>
        simp only [nextCounterValue, hc0, hp0, fallbackCounter]
        omega
      | some pd =>
        have hpd := hprev pd hp0
        have : fallbackCounter (some pd) = pd.counter := by
          simp [fallbackCounter]; omega
        simp [nextCounterValue, hc0, this]
        omega
  · intro hc
    rw [getCounter_state_current] at hc
    simp at hc
  · intro k hk1 hk2
    rw [getCounter_state_other st l t k hk1 hk2]
    exact hother k hk1 hk2

theorem reachable_good (st : Storage) (h : Reachable st) : GoodState st := by
  induction h with
  | empty => exact goodState_empty
  | step st l t _ ih => exact goodState_step st l t ih

theorem fibSeq_pos : ∀ n, 1 ≤ fibSeq n
  | 0 => by norm_num [fibSeq]
  | 1 => by norm_num [fibSeq]
  | n + 2 => by
      have h1 := fibSeq_pos (n + 1)
      have h2 := fibSeq_pos n
      simp only [fibSeq]
      omega

theorem getCounter_increases (st : Storage) (l : LocationInfo) (t : Int)
    (h : GoodState st) (c : StoredData) (hc : st.get "current" = some c) :
    c.counter < (getCounter st l t).1.current.counter := by
  obtain ⟨hcur, hprev, _, _⟩ := h
  rw [getCounter_resp_current]
  cases hp0 : st.get "previous" with
  | none =>
    simp only [nextCounterValue, hc, hp0, fallbackCounter]
    omega
  | some pd =>
    have hpd := (hprev pd hp0).1
    simp only [nextCounterValue, hc, hp0, fallbackCounter]
    rw [if_neg (by omega : ¬ pd.counter = 0)]
    omega

theorem fibState_step (st : Storage) (l : LocationInfo) (t : Int) (k : Nat)
    (hk : 1 ≤ k) (h : FibState k st) :
    (getCounter st l t).1.current.counter = fibSeq (k + 1) ∧
    (∃ p, (getCounter st l t).1.previous = some p ∧ p.counter = fibSeq k) ∧
    FibState (k + 1) (getCounter st l t).2 := by
  obtain ⟨⟨c, hc, hcv⟩, h1, h2⟩ := h
  have hval : (getCounter st l t).1.current.counter = fibSeq (k + 1) := by
    rw [getCounter_resp_current]
    rcases Nat.lt_or_ge k 2 with hk2 | hk2
    · have hk1 : k = 1 := by omega
      subst hk1
      simp only [nextCounterValue, hc, h1 rfl, fallbackCounter]
      rw [hcv]
      norm_num [fibSeq]
    · obtain ⟨p, hp, hpv⟩ := h2 hk2
      obtain ⟨j, rfl⟩ : ∃ j, k = j + 2 := ⟨k - 2, by omega⟩
      have hpv' : p.counter = fibSeq (j + 1) := by simpa using hpv
      have hpos := fibSeq_pos (j + 1)
      simp only [nextCounterValue, hc, hp, fallbackCounter]
      rw [if_neg (by omega : ¬ p.counter = 0), hcv, hpv']
      simp only [fibSeq]
      omega
  refine ⟨hval, ⟨c, ?_, hcv⟩, ?_, ?_, ?_⟩
  · rw [getCounter_resp_previous, hc]
  · exact ⟨(getCounter st l t).1.current, getCounter_state_current st l t, hval⟩
  · intro hcontra
    omega
  · intro _
    refine ⟨c, ?_, ?_⟩
    · rw [getCounter_state_previous, hc]
    · simpa using hcv

theorem runResponses_length (inputs : List (LocationInfo × Int)) :
    ∀ st, (runResponses st inputs).length = inputs.length := by
  induction inputs with
  | nil => intro st; rfl
  | cons i rest ih =>
    obtain ⟨l, t⟩ := i
    intro st
    simp [runResponses, ih]

theorem runResponses_fib (inputs : List (LocationInfo × Int)) :
    ∀ (st : Storage) (k : Nat), 1 ≤ k → FibState k st →
    ∀ j r, (runResponses st inputs)[j]? = some r →
      r.current.counter = fibSeq (k + j + 1) ∧
      ∃ p, r.previous = some p ∧ p.counter = fibSeq (k + j) := by
  induction inputs with
  | nil =>
    intro st k hk h j r hr
    simp [runResponses] at hr
  | cons i rest ih =>
    obtain ⟨l, t⟩ := i
    intro st k hk h j r hr
    obtain ⟨hval, hrp, hnext⟩ := fibState_step st l t k hk h
    cases j with
    | zero =>
      simp only [runResponses, List.getElem?_cons_zero] at hr
      injection hr with hr
      subst hr
      exact ⟨by simpa using hval, by simpa using hrp⟩
    | succ j =>
      simp only [runResponses, List.getElem?_cons_succ] at hr
      have hrec := ih (getCounter st l t).2 (k + 1) (by omega) hnext j r hr
      have e1 : k + 1 + j + 1 = k + (j + 1) + 1 := by omega
      have e2 : k + 1 + j = k + (j + 1) := by omega
      rw [e1, e2] at hrec
      exact hrec

theorem getCounter_empty (l : LocationInfo) (t : Int) :
    (getCounter emptyStorage l t).1.current.counter = 2 ∧
    (getCounter emptyStorage l t).1.previous = none ∧
    FibState 1 (getCounter emptyStorage l t).2 := by
  have hc : (emptyStorage : Storage).get "current" = none := rfl
  have hp : (emptyStorage : Storage).get "previous" = none := rfl
  refine ⟨rfl, rfl, ?_, ?_, ?_⟩
  · refine ⟨(getCounter emptyStorage l t).1.current,
      getCounter_state_current emptyStorage l t, rfl⟩
  · intro _
    rw [getCounter_state_previous, hc, hp]
  · intro hcontra
    omega

theorem runResponses_empty_fib (inputs : List (LocationInfo × Int)) (j : Nat)
    (r : ResponseData) (hr : (runResponses emptyStorage inputs)[j]? = some r) :
    r.current.counter = fibSeq (j + 1) ∧
    (j = 0 → r.previous = none) ∧
    (1 ≤ j → ∃ p, r.previous = some p ∧ p.counter = fibSeq j) := by
  cases inputs with
  | nil => simp [runResponses] at hr
  | cons i rest =>
    obtain ⟨l, t⟩ := i
    obtain ⟨h2, h3, h4⟩ := getCounter_empty l t
    cases j with
    | zero =>
      simp only [runResponses, List.getElem?_cons_zero] at hr
      injection hr with hr
      subst hr
      refine ⟨?_, fun _ => h3, fun hcontra => absurd hcontra (by omega)⟩
      rw [h2]
      norm_num [fibSeq]
    | succ j =>
      simp only [runResponses, List.getElem?_cons_succ] at hr
      have hrec := runResponses_fib rest (getCounter emptyStorage l t).2 1
        le_rfl h4 j r hr
      have e1 : 1 + j + 1 = j + 1 + 1 := by omega
      have e2 : 1 + j = j + 1 := by omega
      rw [e1, e2] at hrec
      exact ⟨hrec.1, fun hcontra => absurd hcontra (by omega), fun _ => hrec.2⟩

theorem getCounterFail_both_ok (st : Storage) (l : LocationInfo) (t : Int) :
    getCounterFail st l t true true = Except.ok (getCounter st l t) := by
  cases hc : st.get "current" <;>
    simp [getCounterFail, getCounter, hc]

/-- C2: for every context payload and every storage state with no
"current" record, the invocation returns current.value 2 with previous
absent, and the "previous" storage slot is left untouched. -/
theorem c2_first_invocation (st : Storage) (l : LocationInfo) (t : Int)
    (h : st.get "current" = none) :
    (getCounter st l t).1.current.counter = 2 ∧
    (getCounter st l t).1.previous = none ∧
    (getCounter st l t).2.get "previous" = st.get "previous" := by
  refine ⟨?_, ?_, ?_⟩
  · rw [getCounter_resp_current]
    simp only [nextCounterValue, h]
  · rw [getCounter_resp_previous, h]
  · rw [getCounter_state_previous, h]

theorem c2_witness :
    (emptyStorage : Storage).get "current" = none ∧
    ((getCounter emptyStorage exLoc 5).1.current.counter = 2 ∧
     (getCounter emptyStorage exLoc 5).1.previous = none ∧
     (getCounter emptyStorage exLoc 5).2.get "previous" =
       (emptyStorage : Storage).get "previous") :=
  ⟨rfl, c2_first_invocation emptyStorage exLoc 5 rfl⟩

/-- C3 counterexample: on a storage state whose "previous" record holds
counter 0 and whose "current" record holds counter 5, the claim predicts
the new value p + current.value = 0 + 5, but the code's falsy-coalescing
fallback `previousData?.counter || 1` yields 1 + 5 = 6. -/
theorem c3_counterexample :
    zeroPrevStorage.get "previous" =
      some { counter := 0, location := exLoc, timestamp := 0 } ∧
    zeroPrevStorage.get "current" =
      some { counter := 5, location := exLoc, timestamp := 0 } ∧
    (getCounter zeroPrevStorage exLoc 1).1.current.counter ≠ 0 + 5 ∧
    (getCounter zeroPrevStorage exLoc 1).1.current.counter = 1 + 5 := by
  refine ⟨by decide, by decide, by decide, by decide⟩

/-- C3 (amended): when a "current" record is present, the new value is
p + currentData.value where p is previousData.value when a "previous"
record is present with a nonzero value, and 1 when the "previous" record
is absent or its value is 0 (JavaScript falsy coalescing). -/
theorem c3_fallback_value (st : Storage) (l : LocationInfo) (t : Int)
    (cd : StoredData) (hc : st.get "current" = some cd) :
    (getCounter st l t).1.current.counter =
      (match st.get "previous" with
       | some pd => if pd.counter = 0 then 1 else pd.counter
       | none => 1) + cd.counter := by
  rw [getCounter_resp_current]
  cases hp : st.get "previous" <;>
    simp only [nextCounterValue, fallbackCounter, hc, hp]

theorem c3_witness :
    zeroPrevStorage.get "current" =
      some { counter := 5, location := exLoc, timestamp := 0 } ∧
    (getCounter zeroPrevStorage exLoc 1).1.current.counter =
      (match zeroPrevStorage.get "previous" with
       | some pd => if pd.counter = 0 then 1 else pd.counter
       | none => 1) +
        ({ counter := 5, location := exLoc, timestamp := 0 } : StoredData).counter :=
  ⟨by decide, c3_fallback_value zeroPrevStorage exLoc 1 _ (by decide)⟩

/-- C4 counterexample: on the (unreachable) storage state holding a
"previous" record but no "current" record, the invocation leaves the
"previous" slot untouched, so after the invocation the stored "previous"
record differs from the record stored as "current" at the start (which was
absent). -/
theorem c4_counterexample :
    ¬ ((getCounter orphanPrevStorage exLoc 0).2.get "previous" =
        orphanPrevStorage.get "current") := by decide

/-- C4 (amended to reachable storage states): after every invocation on a
storage state reachable by successful invocations from fresh storage, the
stored "previous" record equals the record stored as "current" at the
start of the invocation, and no key other than "current" and "previous"
is populated. -/
theorem c4_shift_register (st : Storage) (h : Reachable st)
    (l : LocationInfo) (t : Int) :
    (getCounter st l t).2.get "previous" = st.get "current" ∧
    (∀ k, k ≠ "current" → k ≠ "previous" →
      (getCounter st l t).2.get k = none) := by
  obtain ⟨hcur, hprev, hnone, hother⟩ := reachable_good st h
  constructor
  · rw [getCounter_state_previous]
    cases hc : st.get "current" with
    | none =>
      rw [hnone hc]
    | some cd => rfl
  · intro k hk1 hk2
    rw [getCounter_state_other st l t k hk1 hk2]
    exact hother k hk1 hk2

theorem c4_witness :
    ((getCounter seededStorage exLoc2 1).2.get "previous" =
      seededStorage.get "current") ∧
    (getCounter seededStorage exLoc2 1).2.get "visits" = none :=
  ⟨(c4_shift_register seededStorage
      (Reachable.step emptyStorage exLoc 0 Reachable.empty) exLoc2 1).1,
   (c4_shift_register seededStorage
      (Reachable.step emptyStorage exLoc 0 Reachable.empty) exLoc2 1).2
      "visits" (by decide) (by decide)⟩

/-- C5: the invocation returns the freshly built record as `current` and
the pre-update "current" record (or none) as `previous`; the returned
`previous` is computed from the start-of-invocation "current" slot, never
from the "previous" slot. -/
theorem c5_returned_previous (st : Storage) (l : LocationInfo) (t : Int) :
    (getCounter st l t).1.current =
      { counter := nextCounterValue (st.get "current") (st.get "previous")
        location := l, timestamp := t } ∧
    (getCounter st l t).1.previous = st.get "current" :=
  ⟨rfl, rfl⟩

/-- C6: the context payload is returned unmodified as current.location,
stored verbatim in the "current" record, and surfaces as
previous.location in the next invocation's response on the same actor. -/
theorem c6_context_verbatim (st : Storage) (l : LocationInfo) (t : Int) :
    (getCounter st l t).1.current.location = l ∧
    (∃ c, (getCounter st l t).2.get "current" = some c ∧ c.location = l) ∧
    (∀ l2 t2, ∃ p,
      (getCounter (getCounter st l t).2 l2 t2).1.previous = some p ∧
      p.location = l) := by
  refine ⟨rfl,
    ⟨(getCounter st l t).1.current, getCounter_state_current st l t, rfl⟩, ?_⟩
  intro l2 t2
  refine ⟨(getCounter st l t).1.current, ?_, rfl⟩
  rw [getCounter_resp_previous, getCounter_state_current]

/-- C7: `getCounter` is not idempotent — on every reachable storage
state, two successive invocations with the same context return different
current.value counters. -/
theorem c7_not_idempotent (st : Storage) (h : Reachable st)
    (l : LocationInfo) (t1 t2 : Int) :
    (getCounter ((getCounter st l t1).2) l t2).1.current.counter ≠
      (getCounter st l t1).1.current.counter := by
  have hg1 : GoodState (getCounter st l t1).2 :=
    reachable_good _ (Reachable.step st l t1 h)
  have hlt := getCounter_increases ((getCounter st l t1).2) l t2 hg1
    ((getCounter st l t1).1.current) (getCounter_state_current st l t1)
  omega

theorem c7_witness :
    (getCounter ((getCounter emptyStorage exLoc 0).2) exLoc 1).1.current.counter ≠
      (getCounter emptyStorage exLoc 0).1.current.counter :=
  c7_not_idempotent emptyStorage Reachable.empty exLoc 0 1

/-- C8: when a "current" record exists and the put of "previous"
succeeds but the put of "current" fails, the invocation fails, the
durable state keeps the updated "previous" record and the stale
pre-invocation "current" record, and no other key is changed (no
compensating rollback). -/
theorem c8_partial_write_failure (st : Storage) (l : LocationInfo) (t : Int)
    (cd : StoredData) (hc : st.get "current" = some cd) :
    ∃ st', getCounterFail st l t true false = Except.error st' ∧
      st'.get "previous" = some cd ∧
      st'.get "current" = some cd ∧
      ∀ k, k ≠ "previous" → st'.get k = st.get k := by
  refine ⟨st.put "previous" cd, ?_, ?_, ?_, ?_⟩
  · simp [getCounterFail, hc]
  · exact put_get_same st "previous" cd
  · rw [put_get_other st "previous" "current" cd cur_ne_prev]
    exact hc
  · intro k hk
    exact put_get_other st "previous" k cd hk

theorem c8_witness :
    seededStorage.get "current" =
      some { counter := 2, location := exLoc, timestamp := 0 } ∧
    ∃ st', getCounterFail seededStorage exLoc2 7 true false = Except.error st' ∧
      st'.get "previous" = some { counter := 2, location := exLoc, timestamp := 0 } ∧
      st'.get "current" = some { counter := 2, location := exLoc, timestamp := 0 } ∧
      ∀ k, k ≠ "previous" → st'.get k = seededStorage.get k :=
  ⟨by decide, c8_partial_write_failure seededStorage exLoc2 7 _ (by decide)⟩

/-- C9: every invocation stamps the new "current" record with the clock
reading at write time, so if that reading is not earlier than the
timestamp of the previously written "current" record, the stored
timestamp never decreases. -/
theorem c9_timestamp_monotone (st : Storage) (l : LocationInfo) (t : Int)
    (cd : StoredData) (_hc : st.get "current" = some cd)
    (hclock : cd.timestamp ≤ t) :
    ∃ c', (getCounter st l t).2.get "current" = some c' ∧
      c'.timestamp = t ∧ cd.timestamp ≤ c'.timestamp := by
  refine ⟨(getCounter st l t).1.current, getCounter_state_current st l t, rfl, ?_⟩
  rw [getCounter_resp_current]
  exact hclock

theorem c9_witness :
    seededStorage.get "current" =
      some { counter := 2, location := exLoc, timestamp := 0 } ∧
    ({ counter := 2, location := exLoc, timestamp := 0 } : StoredData).timestamp ≤ 5 ∧
    ∃ c', (getCounter seededStorage exLoc2 5).2.get "current" = some c' ∧
      c'.timestamp = 5 ∧
      ({ counter := 2, location := exLoc, timestamp := 0 } : StoredData).timestamp ≤
        c'.timestamp :=
  ⟨by decide, by decide,
   c9_timestamp_monotone seededStorage exLoc2 5 _ (by decide) (by decide)⟩

/-- C1: on a fresh actor, for every input sequence and every n ≥ 3 within
range, the n-th invocation's returned current.value is the sum of the
(n-1)-th and (n-2)-th returned current.values; the second invocation
returns current.value 3 with previous.value 2, and the third invocation
returns current.value 5 with previous.value 3. -/
theorem c1_fibonacci_recurrence (inputs : List (LocationInfo × Int)) (n : Nat)
    (hn : 3 ≤ n) (hlen : n ≤ inputs.length) :
    (∃ a b c, (runResponses emptyStorage inputs)[n - 1]? = some a ∧
        (runResponses emptyStorage inputs)[n - 2]? = some b ∧
        (runResponses emptyStorage inputs)[n - 3]? = some c ∧
        a.current.counter = b.current.counter + c.current.counter) ∧
    (∀ r, (runResponses emptyStorage inputs)[1]? = some r →
        r.current.counter = 3 ∧ ∃ p, r.previous = some p ∧ p.counter = 2) ∧
    (∀ r, (runResponses emptyStorage inputs)[2]? = some r →
        r.current.counter = 5 ∧ ∃ p, r.previous = some p ∧ p.counter = 3) := by
  have hL : (runResponses emptyStorage inputs).length = inputs.length :=
    runResponses_length inputs emptyStorage
  refine ⟨?_, ?_, ?_⟩
  · obtain ⟨m, rfl⟩ : ∃ m, n = m + 3 := ⟨n - 3, by omega⟩
    have h1 : m + 3 - 1 < (runResponses emptyStorage inputs).length := by omega
    have h2 : m + 3 - 2 < (runResponses emptyStorage inputs).length := by omega
    have h3 : m + 3 - 3 < (runResponses emptyStorage inputs).length := by omega
    refine ⟨(runResponses emptyStorage inputs)[m + 3 - 1],
      (runResponses emptyStorage inputs)[m + 3 - 2],
      (runResponses emptyStorage inputs)[m + 3 - 3],
      List.getElem?_eq_getElem h1, List.getElem?_eq_getElem h2,
      List.getElem?_eq_getElem h3, ?_⟩
    have ha := (runResponses_empty_fib inputs (m + 3 - 1) _
      (List.getElem?_eq_getElem h1)).1
    have hb := (runResponses_empty_fib inputs (m + 3 - 2) _
      (List.getElem?_eq_getElem h2)).1
    have hc := (runResponses_empty_fib inputs (m + 3 - 3) _
      (List.getElem?_eq_getElem h3)).1
    rw [ha, hb, hc]
    have e1 : m + 3 - 1 + 1 = m + 3 := by omega
    have e2 : m + 3 - 2 + 1 = m + 2 := by omega
    have e3 : m + 3 - 3 + 1 = m + 1 := by omega
    rw [e1, e2, e3]
    simp only [fibSeq]
  · intro r hr
    have h := runResponses_empty_fib inputs 1 r hr
    refine ⟨by rw [h.1]; norm_num [fibSeq], ?_⟩
    obtain ⟨p, hp, hpv⟩ := h.2.2 le_rfl
    exact ⟨p, hp, by rw [hpv]; norm_num [fibSeq]⟩
  · intro r hr
    have h := runResponses_empty_fib inputs 2 r hr
    refine ⟨by rw [h.1]; norm_num [fibSeq], ?_⟩
    obtain ⟨p, hp, hpv⟩ := h.2.2 (by omega)
    exact ⟨p, hp, by rw [hpv]; norm_num [fibSeq]⟩

theorem c1_witness :
    (3 ≤ 3 ∧ 3 ≤ inputs3.length) ∧
    ((∃ a b c, (runResponses emptyStorage inputs3)[3 - 1]? = some a ∧
        (runResponses emptyStorage inputs3)[3 - 2]? = some b ∧
        (runResponses emptyStorage inputs3)[3 - 3]? = some c ∧
        a.current.counter = b.current.counter + c.current.counter) ∧
     (∀ r, (runResponses emptyStorage inputs3)[1]? = some r →
        r.current.counter = 3 ∧ ∃ p, r.previous = some p ∧ p.counter = 2) ∧
     (∀ r, (runResponses emptyStorage inputs3)[2]? = some r →
        r.current.counter = 5 ∧ ∃ p, r.previous = some p ∧ p.counter = 3)) :=
  ⟨⟨by decide, by decide⟩,
   c1_fibonacci_recurrence inputs3 3 (by decide) (by decide)⟩

/-- C10: invariant of all storage states reachable by successful
invocations from fresh storage — the stored "current" counter is at least
2, a stored "previous" counter is at least 2 and strictly below the
"current" counter, the code's falsy-coalescing fallback coincides with
the spec's absence-based fallback, and returned current.value strictly
increases across successive invocations. -/
theorem c10_reachable_invariant (st : Storage) (h : Reachable st) :
    (∀ c, st.get "current" = some c → 2 ≤ c.counter) ∧
    (∀ p, st.get "previous" = some p → 2 ≤ p.counter ∧
        ∃ c, st.get "current" = some c ∧ p.counter < c.counter) ∧
    (∀ l t, getCounter st l t = getCounterAbsence st l t) ∧
    (∀ l1 t1 l2 t2,
        (getCounter st l1 t1).1.current.counter <
          (getCounter ((getCounter st l1 t1).2) l2 t2).1.current.counter) := by
  obtain ⟨hcur, hprev, hnone, hother⟩ := reachable_good st h
  refine ⟨hcur, hprev, ?_, ?_⟩
  · intro l t
    unfold getCounter getCounterAbsence
    cases hc : st.get "current" with
    | none => simp [nextCounterValue, hc]
    | some cd =>
      cases hp : st.get "previous" with
      | none => simp [nextCounterValue, fallbackCounter, hc, hp]
      | some pd =>
        have hpd := (hprev pd hp).1
        simp only [nextCounterValue, fallbackCounter, hc, hp]
        rw [if_neg (by omega : ¬ pd.counter = 0)]
  · intro l1 t1 l2 t2
    exact getCounter_increases ((getCounter st l1 t1).2) l2 t2
      (goodState_step st l1 t1 ⟨hcur, hprev, hnone, hother⟩)
      ((getCounter st l1 t1).1.current) (getCounter_state_current st l1 t1)

theorem c10_witness :
    (∀ c, seededStorage.get "current" = some c → 2 ≤ c.counter) ∧
    getCounter seededStorage exLoc 3 = getCounterAbsence seededStorage exLoc 3 ∧
    (getCounter seededStorage exLoc 3).1.current.counter <
      (getCounter ((getCounter seededStorage exLoc 3).2) exLoc2 4).1.current.counter :=
  ⟨(c10_reachable_invariant seededStorage
      (Reachable.step emptyStorage exLoc 0 Reachable.empty)).1,
   (c10_reachable_invariant seededStorage
      (Reachable.step emptyStorage exLoc 0 Reachable.empty)).2.2.1 exLoc 3,
   (c10_reachable_invariant seededStorage
      (Reachable.step emptyStorage exLoc 0 Reachable.empty)).2.2.2 exLoc 3 exLoc2 4⟩

end FibDO
